import Mathlib

set_option maxHeartbeats 1000000

/- Shallow embedding of the relay core of the bridge repository: the generic
state-machine engine, representative protocol steps, the transfer batch data
model with its deep clone, the batch validator HTTP gate and the Ethereum
client transfer execution. Each definition is translated from the Go source;
definitions that stand for code outside the provided sources carry a doc
comment saying so. -/

/-- Step identifiers are opaque strings (relay.StepIdentifier). -/
abbrev StepIdentifier := String

namespace BridgeSteps

/-- Identifier of the initial fetch-pending step of the elrondToEth direction. -/
def GettingPendingBatchFromElrond : StepIdentifier := "GettingPendingBatchFromElrond"

/-- Identifier of the perform-set-status step. -/
def PerformingSetStatus : StepIdentifier := "PerformingSetStatus"

/-- Identifier of the waiting-for-quorum-on-set-status step. -/
def WaitingForQuorumOnSetStatus : StepIdentifier := "WaitingForQuorumOnSetStatus"

/-- Identifier of the sign-proposed-transfer step. -/
def SigningProposedTransferOnEthereum : StepIdentifier := "SigningProposedTransferOnEthereum"

/-- Identifier of the waiting-for-quorum-on-transfer step. -/
def WaitingForQuorumOnTransfer : StepIdentifier := "WaitingForQuorumOnTransfer"

/-- Identifier of the wait-transfer-confirmation step. -/
def WaitingTransferConfirmation : StepIdentifier := "WaitingTransferConfirmation"

/-- Identifier of the perform-transfer step. -/
def PerformingTransfer : StepIdentifier := "PerformingTransfer"

end BridgeSteps

namespace StateMachine

/-- A step of the machine (relay.Step): a constant identifier plus its Execute
behavior. Execute is modeled as a function of the poll index, standing for the
context and the external chain state the concrete step reads. -/
structure MStep where
  ident : StepIdentifier
  exec : Nat → StepIdentifier

/-- The step graph (relay.MachineStates), a map from identifier to step. A map
entry holding a nil interface value is modeled as none. Go map iteration order
is modeled by the list order. -/
abbrev MachineStates := List (StepIdentifier × Option MStep)

/-- ArgsStateMachine of the Go source. The Steps field of a Go map can itself
be nil, hence the outer Option; Log is modeled by whether the logger is
non-nil. -/
structure ArgsStateMachine where
  stateMachineName : String
  steps : Option MachineStates
  startStateIdentifier : StepIdentifier
  durationBetweenSteps : Nat
  log : Bool

/-- The distinct construction errors of the state package. -/
inductive SMError
  | nilStepsMap
  | nilStep (ident : StepIdentifier)
  | nilLogger
  | stepNotFound (ident : StepIdentifier)
deriving DecidableEq, Repr

/-- First map entry whose step value is nil, in iteration order: the entry the
range loop of checkArgs reports. -/
def findNilStep : MachineStates → Option StepIdentifier
  | [] => none
  | (ident, none) :: _ => some ident
  | _ :: rest => findNilStep rest

/-- checkArgs of the Go source: nil steps map, then any nil step value
(naming its identifier), then nil logger. -/
def checkArgs (args : ArgsStateMachine) : Option SMError :=
  match args.steps with
  | none => some .nilStepsMap
  | some l =>
    match findNilStep l with
    | some ident => some (.nilStep ident)
    | none => if args.log then none else some .nilLogger

/-- getNextStep of the Go source: look the identifier up in the step graph,
failing with ErrStepNotFound naming the identifier when absent. -/
def getNextStep (steps : MachineStates) (ident : StepIdentifier) :
    Except SMError (Option MStep) :=
  match List.lookup ident steps with
  | none => .error (.stepNotFound ident)
  | some s => .ok s

/-- The machine handle built by NewStateMachine. loopStarted records that the
background execute loop goroutine was launched; cancelled models the state of
the context created for that loop. -/
structure SMHandle where
  name : String
  steps : MachineStates
  currentStep : Option MStep
  loopStarted : Bool
  cancelled : Bool

/-- NewStateMachine of the Go source: validate the arguments, resolve the
starting step, then start the loop. An error means no handle is returned and
no loop is started. -/
def NewStateMachine (args : ArgsStateMachine) : Except SMError SMHandle :=
  match checkArgs args with
  | some e => .error e
  | none =>
    let l := args.steps.getD []
    match getNextStep l args.startStateIdentifier with
    | .error e => .error e
    | .ok s => .ok ⟨args.stateMachineName, l, s, true, false⟩

/-- Close of the Go source: cancel the loop context and return nil. -/
def close (sm : SMHandle) : SMHandle × Option SMError :=
  ({ sm with cancelled := true }, none)

/-- External events the select of executeLoop waits on: the context being
cancelled, or the poll-interval timer firing. -/
inductive LoopEvent
  | cancel
  | tick

/-- How a finite run of the loop ended: cancelled via the context, stopped
permanently after logging a step-resolution failure (carrying the identifier
that was not found, as logged), or still running with events exhausted. -/
inductive LoopEnd
  | cancelled
  | stepError (badIdent : StepIdentifier)
  | running
deriving DecidableEq, Repr

/-- The loop state: the current step and the poll index fed to exec. -/
structure LoopState where
  current : MStep
  tickCount : Nat

/-- executeLoop plus executeStep of the Go source, run over a finite list of
select outcomes. Each tick executes the current step once (recording its
identifier in the trace), resolves the returned identifier via getNextStep
and either continues with the mapped step or logs the failure and returns,
never executing again. A cancel event returns at once. -/
def runLoop (steps : List (StepIdentifier × MStep)) :
    LoopState → List LoopEvent → List StepIdentifier × LoopEnd
  | _, [] => ([], .running)
  | _, .cancel :: _ => ([], .cancelled)
  | st, .tick :: rest =>
    let nextIdent := st.current.exec st.tickCount
    match List.lookup nextIdent steps with
    | none => ([st.current.ident], .stepError nextIdent)
    | some s =>
      let p := runLoop steps ⟨s, st.tickCount + 1⟩ rest
      (st.current.ident :: p.1, p.2)

end StateMachine

namespace ElrondToEth

open BridgeSteps

/-- Environment of one poll of performSetStatusStep.Execute: the results the
bridge Executor returns on this poll. Errors carry their message. -/
structure PerformSetStatusEnv where
  wasPerformedResult : Except String Bool
  myTurnAsLeader : Bool
  performResult : Except String Unit

/-- performSetStatusStep.Execute of the Go source. The Bool records whether
PerformActionOnElrond was invoked during this poll. -/
def performSetStatusExecute (env : PerformSetStatusEnv) : StepIdentifier × Bool :=
  match env.wasPerformedResult with
  | .error _ => (GettingPendingBatchFromElrond, false)
  | .ok true => (GettingPendingBatchFromElrond, false)
  | .ok false =>
    if !env.myTurnAsLeader then
      (PerformingSetStatus, false)
    else
      match env.performResult with
      | .error _ => (GettingPendingBatchFromElrond, true)
      | .ok _ => (PerformingSetStatus, true)

/-- Modelled from the spec: the sentinel invalid action id (v2.InvalidActionID
of the repository, whose defining file is not among the provided sources).
The spec only requires a reserved sentinel value never usable as a real id;
its numeric value is immaterial to the claims, which compare against the
sentinel by name. -/
def InvalidActionID : Nat := 0

/-- Environment of one poll of signProposedSetStatusStep.Execute: the stored
batch (none models a nil pointer) and the results of the Executor sub-calls. -/
structure SignSetStatusEnv where
  storedBatch : Option Unit
  actionIDResult : Except String Nat
  wasSignedResult : Except String Bool
  signResult : Except String Unit

/-- Modelled from the spec: signProposedSetStatusStep.Execute (its source file
is not among the provided sources; only its unit test is). Following the spec
sign-step description: nil stored batch returns to the initial fetch-pending
step with no signing attempted; an action-id lookup error or the sentinel id
returns to the initial step; an error of the already-signed check returns to
the initial step; when already signed, signing is not invoked and the step
advances to waiting-for-quorum-on-set-status; when not signed, signing is
invoked exactly once, advancing to the same target on success and returning
to the initial step on error. The Nat counts SignActionOnElrond invocations. -/
def signProposedSetStatusExecute (env : SignSetStatusEnv) : StepIdentifier × Nat :=
  match env.storedBatch with
  | none => (GettingPendingBatchFromElrond, 0)
  | some _ =>
    match env.actionIDResult with
    | .error _ => (GettingPendingBatchFromElrond, 0)
    | .ok actionID =>
      if actionID = InvalidActionID then
        (GettingPendingBatchFromElrond, 0)
      else
        match env.wasSignedResult with
        | .error _ => (GettingPendingBatchFromElrond, 0)
        | .ok true => (WaitingForQuorumOnSetStatus, 0)
        | .ok false =>
          match env.signResult with
          | .error _ => (GettingPendingBatchFromElrond, 1)
          | .ok _ => (WaitingForQuorumOnSetStatus, 1)

/-- Environment of one poll of waitTransferConfirmationStep.Execute: whatever
the blocking WaitForTransferConfirmation call observed (a confirmation signal,
or the context being cancelled). -/
structure WaitConfirmationEnv where
  ctxCancelled : Bool

/-- waitTransferConfirmationStep.Execute of the Go source: wait for the
confirmation signal, then return PerformingTransfer unconditionally. The trace
component records the Executor calls made, in order. -/
def waitTransferConfirmationExecute (_env : WaitConfirmationEnv) :
    List String × StepIdentifier :=
  (["WaitForTransferConfirmation"], PerformingTransfer)

end ElrondToEth

namespace BatchValidator

/-- The classes of response body relevant to the microservice contract: a
zero-length body, a body that is not well-formed JSON, or a well-formed JSON
object carrying the valid flag. Go ReadAll returns a non-nil slice even for a
zero-length body, so the nil-bytes branch of ValidateBatch is unreachable and
an empty body surfaces through the unmarshal error instead. -/
inductive BodyContent
  | empty
  | malformed
  | jsonValid (valid : Bool)
deriving DecidableEq, Repr

/-- Behavior of encoding/json.Unmarshal into microserviceResponse on each body
class: an empty input and malformed JSON are errors; a well-formed object
yields its valid flag (absent fields default to false, folded into jsonValid). -/
def unmarshalResponse : BodyContent → Except String Bool
  | .empty => .error "unexpected end of JSON input"
  | .malformed => .error "invalid JSON"
  | .jsonValid valid => .ok valid

/-- Outcome of the HTTP round trip performed by doRequestReturningBytes:
building the request can fail, the transport can fail (this is also how the
per-call timeout of the wrapping context surfaces, as a deadline-exceeded
error from Do), reading the body can fail, or a response arrives with a
status code and a body. -/
inductive DoOutcome
  | requestBuildError (msg : String)
  | transportError (msg : String)
  | bodyReadError (msg : String)
  | response (statusCode : Nat) (body : BodyContent)
deriving DecidableEq, Repr

/-- doRequestReturningBytes of the Go source: propagate any request, transport
or read error; otherwise return the body bytes. The status code of the
response is never inspected. -/
def doRequestReturningBytes : DoOutcome → Except String BodyContent
  | .requestBuildError msg => .error msg
  | .transportError msg => .error msg
  | .bodyReadError msg => .error msg
  | .response _ body => .ok body

/-- doRequest of the Go source: wrap the context with the configured timeout
(a timeout shows up as a transportError outcome of Do) and delegate. -/
def doRequest (outcome : DoOutcome) : Except String BodyContent :=
  doRequestReturningBytes outcome

/-- ValidateBatch of the Go source, as a function of the marshalling result of
the batch and of the HTTP outcome: marshal errors, request errors and
unmarshal errors are reported as (false, error); otherwise the parsed valid
flag is returned with a nil error. -/
def ValidateBatch (marshalResult : Except String Unit) (outcome : DoOutcome) :
    Bool × Option String :=
  match marshalResult with
  | .error msg => (false, some ("during marshal: " ++ msg))
  | .ok _ =>
    match doRequest outcome with
    | .error msg => (false, some ("executing request: " ++ msg))
    | .ok body =>
      match unmarshalResponse body with
      | .error msg => (false, some ("during unmarshal: " ++ msg))
      | .ok valid => (valid, none)

end BatchValidator

namespace Batches

/-- Pointwise update of a memory function. -/
def updateFn (f : Nat → α) (r : Nat) (v : α) : Nat → α :=
  fun i => if i = r then v else f i

/-- A small heap making slice and big.Int aliasing observable: byte-slice
cells and big.Int cells, addressed by allocation index, with bump allocation.
Cells at or beyond the allocation counter are unallocated. -/
structure Heap where
  bytesMem : Nat → List Nat
  bytesNext : Nat
  intsMem : Nat → Int
  intsNext : Nat

/-- Read a byte-slice cell. -/
def Heap.readBytes (h : Heap) (r : Nat) : List Nat := h.bytesMem r

/-- Read a big.Int cell. -/
def Heap.readInt (h : Heap) (r : Nat) : Int := h.intsMem r

/-- Overwrite a byte-slice cell in place, as mutating a shared slice does. -/
def Heap.writeBytes (h : Heap) (r : Nat) (v : List Nat) : Heap :=
  { h with bytesMem := updateFn h.bytesMem r v }

/-- Overwrite a big.Int cell in place, as big.Int Set on a shared value does. -/
def Heap.writeInt (h : Heap) (r : Nat) (v : Int) : Heap :=
  { h with intsMem := updateFn h.intsMem r v }

/-- Allocate a fresh byte-slice cell holding v (the make-then-copy of the Go
clone: the copy fills the whole fresh slice with the source bytes). -/
def Heap.allocBytes (h : Heap) (v : List Nat) : Nat × Heap :=
  (h.bytesNext,
   { h with bytesMem := updateFn h.bytesMem h.bytesNext v,
            bytesNext := h.bytesNext + 1 })

/-- Allocate a fresh big.Int cell holding v (big.NewInt). -/
def Heap.allocInt (h : Heap) (v : Int) : Nat × Heap :=
  (h.intsNext,
   { h with intsMem := updateFn h.intsMem h.intsNext v,
            intsNext := h.intsNext + 1 })

/-- DepositTransfer of the Go source. Byte-slice fields hold references into
the heap; Amount is a nil-able pointer to a big.Int cell. -/
structure DepositTransfer where
  Nonce : Nat
  ToBytes : Nat
  DisplayableTo : String
  FromBytes : Nat
  DisplayableFrom : String
  TokenBytes : Nat
  DisplayableToken : String
  Amount : Option Nat

/-- TransferBatch of the Go source. -/
structure TransferBatch where
  ID : Nat
  Deposits : List DepositTransfer

/-- The observable value of one deposit: every field dereferenced. -/
structure DepositView where
  nonceV : Nat
  toV : List Nat
  displayableToV : String
  fromV : List Nat
  displayableFromV : String
  tokenV : List Nat
  displayableTokenV : String
  amountV : Option Int
deriving DecidableEq, Repr

/-- Dereference a deposit in a heap. -/
def DepositTransfer.view (dt : DepositTransfer) (h : Heap) : DepositView :=
  { nonceV := dt.Nonce
    toV := h.readBytes dt.ToBytes
    displayableToV := dt.DisplayableTo
    fromV := h.readBytes dt.FromBytes
    displayableFromV := dt.DisplayableFrom
    tokenV := h.readBytes dt.TokenBytes
    displayableTokenV := dt.DisplayableToken
    amountV := dt.Amount.map h.readInt }

/-- Dereference a whole batch in a heap. -/
def TransferBatch.view (tb : TransferBatch) (h : Heap) : Nat × List DepositView :=
  (tb.ID, tb.Deposits.map (fun dt => dt.view h))

/-- A deposit is well formed in a heap when all its references are allocated
and, per the data model, it carries a (non-nil) amount. -/
def wfDeposit (h : Heap) (dt : DepositTransfer) : Bool :=
  decide (dt.ToBytes < h.bytesNext) &&
  decide (dt.FromBytes < h.bytesNext) &&
  decide (dt.TokenBytes < h.bytesNext) &&
  (match dt.Amount with
   | none => false
   | some r => decide (r < h.intsNext))

/-- A batch is well formed when every deposit is. -/
def wfBatch (h : Heap) (tb : TransferBatch) : Bool :=
  tb.Deposits.all (wfDeposit h)

/-- DepositTransfer.Clone of the Go source: allocate fresh zero slices of the
source lengths and copy the source bytes into them (net effect: fresh cells
holding the source contents, in field order), allocate a fresh big.Int zero
cell, and Set it from the source amount when the latter is non-nil. -/
def DepositTransfer.clone (dt : DepositTransfer) (h : Heap) :
    DepositTransfer × Heap :=
  let toAlloc := h.allocBytes (h.readBytes dt.ToBytes)
  let h1 := toAlloc.2
  let fromAlloc := h1.allocBytes (h1.readBytes dt.FromBytes)
  let h2 := fromAlloc.2
  let tokenAlloc := h2.allocBytes (h2.readBytes dt.TokenBytes)
  let h3 := tokenAlloc.2
  let amountAlloc := h3.allocInt 0
  let h4 := amountAlloc.2
  let h5 :=
    match dt.Amount with
    | none => h4
    | some r => h4.writeInt amountAlloc.1 (h4.readInt r)
  (⟨dt.Nonce, toAlloc.1, dt.DisplayableTo, fromAlloc.1, dt.DisplayableFrom,
    tokenAlloc.1, dt.DisplayableToken, some amountAlloc.1⟩, h5)

/-- The loop body of TransferBatch.Clone: clone each deposit in order,
threading the heap, and collect the clones in order (append). -/
def cloneDeposits (h : Heap) : List DepositTransfer → List DepositTransfer × Heap
  | [] => ([], h)
  | dt :: rest =>
    let p := dt.clone h
    let q := cloneDeposits p.2 rest
    (p.1 :: q.1, q.2)

/-- TransferBatch.Clone of the Go source: same ID, deposits cloned in order. -/
def TransferBatch.clone (tb : TransferBatch) (h : Heap) : TransferBatch × Heap :=
  let p := cloneDeposits h tb.Deposits
  (⟨tb.ID, p.1⟩, p.2)

/-- The byte-slice references reachable from a batch. -/
def TransferBatch.byteRefs (tb : TransferBatch) : List Nat :=
  tb.Deposits.flatMap (fun dt => [dt.ToBytes, dt.FromBytes, dt.TokenBytes])

/-- The big.Int references reachable from a batch. -/
def TransferBatch.intRefs (tb : TransferBatch) : List Nat :=
  tb.Deposits.filterMap (fun dt => dt.Amount)

/-- Heap h2 extends heap h: allocation counters have not decreased and every
cell allocated in h holds the same value in h2. -/
def heapGrows (h h2 : Heap) : Prop :=
  h.bytesNext ≤ h2.bytesNext ∧ h.intsNext ≤ h2.intsNext ∧
  (∀ i, i < h.bytesNext → h2.bytesMem i = h.bytesMem i) ∧
  (∀ i, i < h.intsNext → h2.intsMem i = h.intsMem i)

end Batches

namespace EthClient

/-- Environment of one ExecuteTransfer call: the results of the collaborator
calls made before and after the signature check, in source order. signatures
is what the signature holder returns for the message hash. -/
structure ExecTransferEnv where
  nonceResult : Except String Int
  chainIDResult : Except String Int
  transactorResult : Except String Unit
  gasPriceResult : Except String Int
  signatures : List (List Nat)
  extractResult : Except String Unit
  balanceResult : Except String Unit
  contractResult : Except String String

/-- Observable outcome of ExecuteTransfer: the returned transaction hash, the
returned error (none for nil), and the signature set passed to the underlying
contract call of the client wrapper (none when that call was never invoked). -/
structure ExecTransferOutcome where
  hash : String
  errMsg : Option String
  contractSigs : Option (List (List Nat))
deriving DecidableEq, Repr

/-- client.ExecuteTransfer of the Go source: nil-batch check, nonce, chain id,
keyed transactor, gas price; then the quorum check on the held signatures
(fewer than quorum fails with the quorum-not-reached error before any
contract interaction; more than quorum keeps only the first quorum ones);
then argument extraction, the balance check, and the contract call. -/
def executeTransfer (batch : Option Batches.TransferBatch) (quorum : Nat)
    (env : ExecTransferEnv) : ExecTransferOutcome :=
  match batch with
  | none => ⟨"", some "nil batch", none⟩
  | some _ =>
    match env.nonceResult with
    | .error msg => ⟨"", some msg, none⟩
    | .ok _ =>
      match env.chainIDResult with
      | .error msg => ⟨"", some msg, none⟩
      | .ok _ =>
        match env.transactorResult with
        | .error msg => ⟨"", some msg, none⟩
        | .ok _ =>
          match env.gasPriceResult with
          | .error msg => ⟨"", some msg, none⟩
          | .ok _ =>
            if env.signatures.length < quorum then
              ⟨"", some ("quorum not reached num signatures: " ++
                toString env.signatures.length ++ " quorum: " ++ toString quorum),
               none⟩
            else
              let signatures :=
                if env.signatures.length > quorum then env.signatures.take quorum
                else env.signatures
              match env.extractResult with
              | .error msg => ⟨"", some msg, none⟩
              | .ok _ =>
                match env.balanceResult with
                | .error msg => ⟨"", some msg, none⟩
                | .ok _ =>
                  match env.contractResult with
                  | .error msg => ⟨"", some msg, some signatures⟩
                  | .ok txHash => ⟨txHash, none, some signatures⟩

end EthClient

/- Helper lemmas. -/

namespace StateMachine

theorem findNilStep_mem (l : MachineStates) (x : StepIdentifier)
    (h : findNilStep l = some x) : (x, none) ∈ l := by
  induction l with
  | nil => simp [findNilStep] at h
  | cons hd tl ih =>
    obtain ⟨ident, step⟩ := hd
    cases step with
    | none =>
      simp [findNilStep] at h
      simp [h]
    | some s =>
      simp [findNilStep] at h
      exact List.mem_cons_of_mem _ (ih h)

end StateMachine

namespace Batches

theorem updateFn_same (f : Nat → α) (r : Nat) (v : α) : updateFn f r v r = v := by
  simp [updateFn]

theorem updateFn_other (f : Nat → α) (r : Nat) (v : α) (i : Nat) (hne : i ≠ r) :
    updateFn f r v i = f i := by
  simp [updateFn, hne]

theorem heapGrows_refl (h : Heap) : heapGrows h h :=
  ⟨le_refl _, le_refl _, fun _ _ => rfl, fun _ _ => rfl⟩

theorem heapGrows_trans {h1 h2 h3 : Heap} (a : heapGrows h1 h2)
    (b : heapGrows h2 h3) : heapGrows h1 h3 := by
  obtain ⟨a1, a2, a3, a4⟩ := a
  obtain ⟨b1, b2, b3, b4⟩ := b
  refine ⟨le_trans a1 b1, le_trans a2 b2, ?_, ?_⟩
  · intro i hi
    rw [b3 i (lt_of_lt_of_le hi a1), a3 i hi]
  · intro i hi
    rw [b4 i (lt_of_lt_of_le hi a2), a4 i hi]

theorem heapGrows_allocBytes (h : Heap) (v : List Nat) :
    heapGrows h (h.allocBytes v).2 := by
  refine ⟨by simp [Heap.allocBytes], by simp [Heap.allocBytes], ?_, ?_⟩
  · intro i hi
    have hne : i ≠ h.bytesNext := by omega
    simp [Heap.allocBytes, updateFn_other _ _ _ _ hne]
  · intro i hi
    rfl

theorem heapGrows_allocInt (h : Heap) (v : Int) :
    heapGrows h (h.allocInt v).2 := by
  refine ⟨by simp [Heap.allocInt], by simp [Heap.allocInt], ?_, ?_⟩
  · intro i hi
    rfl
  · intro i hi
    have hne : i ≠ h.intsNext := by omega
    simp [Heap.allocInt, updateFn_other _ _ _ _ hne]

theorem heapGrows_writeBytes_fresh {h h2 : Heap} (hg : heapGrows h h2)
    (r : Nat) (hr : h.bytesNext ≤ r) (v : List Nat) :
    heapGrows h (h2.writeBytes r v) := by
  obtain ⟨g1, g2, g3, g4⟩ := hg
  refine ⟨g1, g2, ?_, g4⟩
  intro i hi
  have hne : i ≠ r := by omega
  simp [Heap.writeBytes, updateFn_other _ _ _ _ hne, g3 i hi]

theorem heapGrows_writeInt_fresh {h h2 : Heap} (hg : heapGrows h h2)
    (r : Nat) (hr : h.intsNext ≤ r) (v : Int) :
    heapGrows h (h2.writeInt r v) := by
  obtain ⟨g1, g2, g3, g4⟩ := hg
  refine ⟨g1, g2, g3, ?_⟩
  intro i hi
  have hne : i ≠ r := by omega
  simp [Heap.writeInt, updateFn_other _ _ _ _ hne, g4 i hi]

theorem wfDeposit_iff (h : Heap) (dt : DepositTransfer) :
    wfDeposit h dt = true ↔
      dt.ToBytes < h.bytesNext ∧ dt.FromBytes < h.bytesNext ∧
      dt.TokenBytes < h.bytesNext ∧
      ∃ r, dt.Amount = some r ∧ r < h.intsNext := by
  cases hA : dt.Amount with
  | none => simp [wfDeposit, hA]
  | some r => simp [wfDeposit, hA, and_assoc]

theorem wfDeposit_grows {h h2 : Heap} {dt : DepositTransfer}
    (hwf : wfDeposit h dt = true) (hg : heapGrows h h2) :
    wfDeposit h2 dt = true := by
  rw [wfDeposit_iff] at hwf ⊢
  obtain ⟨hTo, hFrom, hTok, r, hA, hr⟩ := hwf
  obtain ⟨g1, g2, _, _⟩ := hg
  exact ⟨by omega, by omega, by omega, r, hA, by omega⟩

theorem depositView_grows (dt : DepositTransfer) {h h2 : Heap}
    (hwf : wfDeposit h dt = true) (hg : heapGrows h h2) :
    dt.view h2 = dt.view h := by
  rw [wfDeposit_iff] at hwf
  obtain ⟨hTo, hFrom, hTok, r, hA, hr⟩ := hwf
  obtain ⟨g1, g2, g3, g4⟩ := hg
  simp [DepositTransfer.view, Heap.readBytes, Heap.readInt, hA,
    g3 _ hTo, g3 _ hFrom, g3 _ hTok, g4 _ hr]

theorem depositClone_refs (dt : DepositTransfer) (h : Heap) :
    (dt.clone h).1.Nonce = dt.Nonce ∧
    (dt.clone h).1.ToBytes = h.bytesNext ∧
    (dt.clone h).1.DisplayableTo = dt.DisplayableTo ∧
    (dt.clone h).1.FromBytes = h.bytesNext + 1 ∧
    (dt.clone h).1.DisplayableFrom = dt.DisplayableFrom ∧
    (dt.clone h).1.TokenBytes = h.bytesNext + 2 ∧
    (dt.clone h).1.DisplayableToken = dt.DisplayableToken ∧
    (dt.clone h).1.Amount = some h.intsNext := by
  cases hA : dt.Amount with
  | none =>
    simp [DepositTransfer.clone, Heap.allocBytes, Heap.allocInt, hA]
  | some r =>
    simp [DepositTransfer.clone, Heap.allocBytes, Heap.allocInt, Heap.writeInt, hA]

theorem depositClone_counters (dt : DepositTransfer) (h : Heap) :
    (dt.clone h).2.bytesNext = h.bytesNext + 3 ∧
    (dt.clone h).2.intsNext = h.intsNext + 1 := by
  cases hA : dt.Amount with
  | none =>
    simp [DepositTransfer.clone, Heap.allocBytes, Heap.allocInt, hA]
  | some r =>
    simp [DepositTransfer.clone, Heap.allocBytes, Heap.allocInt, Heap.writeInt, hA]

theorem depositClone_grows (dt : DepositTransfer) (h : Heap) :
    heapGrows h (dt.clone h).2 := by
  cases hA : dt.Amount with
  | none =>
    simp only [DepositTransfer.clone, hA]
    exact heapGrows_trans (heapGrows_trans (heapGrows_trans
      (heapGrows_allocBytes _ _) (heapGrows_allocBytes _ _))
      (heapGrows_allocBytes _ _)) (heapGrows_allocInt _ _)
  | some r =>
    simp only [DepositTransfer.clone, hA]
    refine heapGrows_writeInt_fresh ?_ _ ?_ _
    · exact heapGrows_trans (heapGrows_trans (heapGrows_trans
        (heapGrows_allocBytes _ _) (heapGrows_allocBytes _ _))
        (heapGrows_allocBytes _ _)) (heapGrows_allocInt _ _)
    · simp [Heap.allocBytes, Heap.allocInt]

theorem depositClone_view (dt : DepositTransfer) (h : Heap)
    (hwf : wfDeposit h dt = true) :
    (dt.clone h).1.view (dt.clone h).2 = dt.view h := by
  rw [wfDeposit_iff] at hwf
  obtain ⟨hTo, hFrom, hTok, r, hA, hr⟩ := hwf
  have ne0 : dt.ToBytes ≠ h.bytesNext := by omega
  have ne1 : dt.FromBytes ≠ h.bytesNext := by omega
  have ne1' : dt.FromBytes ≠ h.bytesNext + 1 := by omega
  have ne2 : dt.TokenBytes ≠ h.bytesNext := by omega
  have ne2' : dt.TokenBytes ≠ h.bytesNext + 1 := by omega
  have ne2'' : dt.TokenBytes ≠ h.bytesNext + 2 := by omega
  have neb0 : h.bytesNext ≠ h.bytesNext + 1 := by omega
  have neb0' : h.bytesNext ≠ h.bytesNext + 2 := by omega
  have neb1 : h.bytesNext + 1 ≠ h.bytesNext + 2 := by omega
  have ner : r ≠ h.intsNext := by omega
  simp [DepositTransfer.clone, Heap.allocBytes, Heap.allocInt, Heap.writeInt,
    Heap.readBytes, Heap.readInt, hA, DepositTransfer.view,
    updateFn_same, updateFn_other _ _ _ _ ne0, updateFn_other _ _ _ _ ne1,
    updateFn_other _ _ _ _ ne1', updateFn_other _ _ _ _ ne2,
    updateFn_other _ _ _ _ ne2', updateFn_other _ _ _ _ ne2'',
    updateFn_other _ _ _ _ neb0, updateFn_other _ _ _ _ neb0',
    updateFn_other _ _ _ _ neb1, updateFn_other _ _ _ _ ner]

theorem batchView_grows (tb : TransferBatch) {h h2 : Heap}
    (hwf : wfBatch h tb = true) (hg : heapGrows h h2) :
    tb.view h2 = tb.view h := by
  rw [wfBatch, List.all_eq_true] at hwf
  simp only [TransferBatch.view]
  refine congrArg _ (List.map_congr_left ?_)
  intro dt hdt
  exact depositView_grows dt (hwf dt hdt) hg

theorem depositClone_wf (dt : DepositTransfer) (h : Heap) :
    wfDeposit (dt.clone h).2 (dt.clone h).1 = true := by
  obtain ⟨_, hTo, _, hFrom, _, hTok, _, hAm⟩ := depositClone_refs dt h
  obtain ⟨hbc, hic⟩ := depositClone_counters dt h
  rw [wfDeposit_iff]
  exact ⟨by omega, by omega, by omega, h.intsNext, hAm, by omega⟩

theorem cloneDeposits_spec (l : List DepositTransfer) (h : Heap)
    (hwf : l.all (wfDeposit h) = true) :
    heapGrows h (cloneDeposits h l).2 ∧
    ((cloneDeposits h l).1.map (fun d => d.view (cloneDeposits h l).2)
      = l.map (fun d => d.view h)) ∧
    (∀ d ∈ (cloneDeposits h l).1,
      h.bytesNext ≤ d.ToBytes ∧ h.bytesNext ≤ d.FromBytes ∧
      h.bytesNext ≤ d.TokenBytes ∧ ∀ r, d.Amount = some r → h.intsNext ≤ r) := by
  induction l generalizing h with
  | nil =>
    simp [cloneDeposits, heapGrows_refl]
  | cons d rest ih =>
    rw [List.all_cons, Bool.and_eq_true] at hwf
    obtain ⟨hd, hrest⟩ := hwf
    have hgp : heapGrows h (d.clone h).2 := depositClone_grows d h
    have hrest2 : rest.all (wfDeposit (d.clone h).2) = true := by
      rw [List.all_eq_true] at hrest ⊢
      exact fun x hx => wfDeposit_grows (hrest x hx) hgp
    obtain ⟨gih, vih, fih⟩ := ih (d.clone h).2 hrest2
    obtain ⟨hbc, hic⟩ := depositClone_counters d h
    obtain ⟨_, hTo, _, hFrom, _, hTok, _, hAm⟩ := depositClone_refs d h
    refine ⟨?_, ?_, ?_⟩
    · simp only [cloneDeposits]
      exact heapGrows_trans hgp gih
    · simp only [cloneDeposits, List.map_cons]
      refine congrArg₂ _ ?_ ?_
      · rw [depositView_grows (d.clone h).1 (depositClone_wf d h) gih]
        exact depositClone_view d h hd
      · rw [vih]
        refine List.map_congr_left ?_
        intro x hx
        rw [List.all_eq_true] at hrest
        exact depositView_grows x (hrest x hx) hgp
    · simp only [cloneDeposits, List.mem_cons]
      rintro d' (rfl | hmem)
      · refine ⟨by omega, by omega, by omega, ?_⟩
        intro r hr
        rw [hr] at hAm
        simp at hAm
        omega
      · obtain ⟨f1, f2, f3, f4⟩ := fih d' hmem
        refine ⟨by omega, by omega, by omega, ?_⟩
        intro r hr
        have := f4 r hr
        omega

theorem batchClone_grows (tb : TransferBatch) (h : Heap)
    (hwf : wfBatch h tb = true) : heapGrows h (tb.clone h).2 :=
  (cloneDeposits_spec tb.Deposits h hwf).1

theorem batchClone_byteRefs_fresh (tb : TransferBatch) (h : Heap)
    (hwf : wfBatch h tb = true) (r : Nat) (hr : r ∈ (tb.clone h).1.byteRefs) :
    h.bytesNext ≤ r := by
  obtain ⟨_, _, fresh⟩ := cloneDeposits_spec tb.Deposits h hwf
  rw [TransferBatch.byteRefs, List.mem_flatMap] at hr
  obtain ⟨d, hd, hrd⟩ := hr
  obtain ⟨f1, f2, f3, _⟩ := fresh d hd
  simp at hrd
  rcases hrd with rfl | rfl | rfl <;> omega

theorem batchClone_intRefs_fresh (tb : TransferBatch) (h : Heap)
    (hwf : wfBatch h tb = true) (r : Nat) (hr : r ∈ (tb.clone h).1.intRefs) :
    h.intsNext ≤ r := by
  obtain ⟨_, _, fresh⟩ := cloneDeposits_spec tb.Deposits h hwf
  rw [TransferBatch.intRefs, List.mem_filterMap] at hr
  obtain ⟨d, hd, hrd⟩ := hr
  exact (fresh d hd).2.2.2 r hrd

end Batches

/- Claim theorems. -/

/-- Claim C1: in every execution of the state machine loop, when the current
step Execute call returns an identifier that is not a key of the step graph,
the loop records the failure (the stepError end state models the error log)
and terminates permanently: the trace holds only the step already executed,
whatever events would have followed, and the loop is never restarted; when
the returned identifier is a key of the graph, the loop continues with the
step the graph maps it to. -/
theorem stateMachine_loop_unknown_fatal_known_continues
    (steps : List (StepIdentifier × StateMachine.MStep))
    (st : StateMachine.LoopState) (rest : List StateMachine.LoopEvent) :
    (List.lookup (st.current.exec st.tickCount) steps = none →
      StateMachine.runLoop steps st (.tick :: rest) =
        ([st.current.ident], .stepError (st.current.exec st.tickCount)))
    ∧ (∀ s, List.lookup (st.current.exec st.tickCount) steps = some s →
      StateMachine.runLoop steps st (.tick :: rest) =
        (st.current.ident ::
            (StateMachine.runLoop steps ⟨s, st.tickCount + 1⟩ rest).1,
          (StateMachine.runLoop steps ⟨s, st.tickCount + 1⟩ rest).2)) := by
  constructor
  · intro h
    simp [StateMachine.runLoop, h]
  · intro s h
    simp [StateMachine.runLoop, h]

/-- Witness for C1 at concrete machines: a step returning an unknown
identifier stops the loop even though events remain, and a step returning a
known identifier continues with the mapped step. -/
theorem stateMachine_loop_unknown_fatal_known_continues_witness :
    (List.lookup "bad" [("a", (⟨"a", fun _ => "bad"⟩ : StateMachine.MStep))] =
        none ∧
      StateMachine.runLoop [("a", (⟨"a", fun _ => "bad"⟩ : StateMachine.MStep))]
          ⟨⟨"a", fun _ => "bad"⟩, 0⟩ [.tick, .tick, .tick] =
        (["a"], .stepError "bad"))
    ∧ (List.lookup "b"
          [("a", (⟨"a", fun _ => "b"⟩ : StateMachine.MStep)),
           ("b", (⟨"b", fun _ => "a"⟩ : StateMachine.MStep))] =
        some ⟨"b", fun _ => "a"⟩ ∧
      StateMachine.runLoop
          [("a", (⟨"a", fun _ => "b"⟩ : StateMachine.MStep)),
           ("b", (⟨"b", fun _ => "a"⟩ : StateMachine.MStep))]
          ⟨⟨"a", fun _ => "b"⟩, 0⟩ [.tick] =
        ("a" ::
            (StateMachine.runLoop
              [("a", (⟨"a", fun _ => "b"⟩ : StateMachine.MStep)),
               ("b", (⟨"b", fun _ => "a"⟩ : StateMachine.MStep))]
              ⟨⟨"b", fun _ => "a"⟩, 1⟩ []).1,
          (StateMachine.runLoop
              [("a", (⟨"a", fun _ => "b"⟩ : StateMachine.MStep)),
               ("b", (⟨"b", fun _ => "a"⟩ : StateMachine.MStep))]
              ⟨⟨"b", fun _ => "a"⟩, 1⟩ []).2)) :=
  ⟨⟨rfl,
    (stateMachine_loop_unknown_fatal_known_continues _ _ [.tick, .tick]).1 rfl⟩,
   ⟨rfl,
    (stateMachine_loop_unknown_fatal_known_continues _ _ []).2 _ rfl⟩⟩

/-- Claim C2: NewStateMachine fails with a distinct error for each invalid
argument. A nil steps map yields the nil-steps error; a nil step value found
at identifier x yields the nil-step error naming x (and x indeed holds a nil
value in the map); a nil logger yields the nil-logger error; a start
identifier absent from the graph yields the step-not-found error naming it.
In each case the result is Except.error, so no machine handle (whose
loopStarted field records the launched loop) is returned. -/
theorem newStateMachine_distinct_construction_errors
    (name start : String) (dur : Nat)
    (l : StateMachine.MachineStates) (x : StepIdentifier)
    (hx : StateMachine.findNilStep l = some x)
    (l2 : StateMachine.MachineStates)
    (h2 : StateMachine.findNilStep l2 = none)
    (hstart : List.lookup start l2 = none) :
    StateMachine.NewStateMachine ⟨name, none, start, dur, true⟩ =
      .error .nilStepsMap
    ∧ (StateMachine.NewStateMachine ⟨name, some l, start, dur, true⟩ =
        .error (.nilStep x) ∧ (x, none) ∈ l)
    ∧ StateMachine.NewStateMachine ⟨name, some l2, start, dur, false⟩ =
      .error .nilLogger
    ∧ StateMachine.NewStateMachine ⟨name, some l2, start, dur, true⟩ =
      .error (.stepNotFound start) := by
  refine ⟨?_, ⟨?_, StateMachine.findNilStep_mem l x hx⟩, ?_, ?_⟩
  · simp [StateMachine.NewStateMachine, StateMachine.checkArgs]
  · simp [StateMachine.NewStateMachine, StateMachine.checkArgs, hx]
  · simp [StateMachine.NewStateMachine, StateMachine.checkArgs, h2]
  · simp [StateMachine.NewStateMachine, StateMachine.checkArgs,
      StateMachine.getNextStep, h2, hstart]

/-- Witness for C2 at concrete arguments: a map with a nil entry at "x", and
a nil-free map not containing the identifier "zz". -/
theorem newStateMachine_distinct_construction_errors_witness :
    StateMachine.findNilStep [("x", none)] = some "x"
    ∧ StateMachine.findNilStep
        [("a", some (⟨"a", fun _ => "a"⟩ : StateMachine.MStep))] = none
    ∧ List.lookup "zz"
        [("a", some (⟨"a", fun _ => "a"⟩ : StateMachine.MStep))] = none
    ∧ StateMachine.NewStateMachine ⟨"m", none, "zz", 1, true⟩ =
        .error .nilStepsMap
    ∧ StateMachine.NewStateMachine ⟨"m", some [("x", none)], "zz", 1, true⟩ =
        .error (.nilStep "x")
    ∧ StateMachine.NewStateMachine
        ⟨"m", some [("a", some (⟨"a", fun _ => "a"⟩ : StateMachine.MStep))],
          "zz", 1, false⟩ = .error .nilLogger
    ∧ StateMachine.NewStateMachine
        ⟨"m", some [("a", some (⟨"a", fun _ => "a"⟩ : StateMachine.MStep))],
          "zz", 1, true⟩ = .error (.stepNotFound "zz") := by
  have h := newStateMachine_distinct_construction_errors "m" "zz" 1
    [("x", none)] "x" rfl
    [("a", some (⟨"a", fun _ => "a"⟩ : StateMachine.MStep))] rfl rfl
  exact ⟨rfl, rfl, rfl, h.1, h.2.1.1, h.2.2.1, h.2.2.2⟩

/-- Claim C9: Close cancels the loop context and always returns nil; calling
it any number of times, in particular twice in succession, returns nil each
time (it is a total function of the handle, so it cannot panic), and a
cancelled context makes the loop return without executing further steps. -/
theorem stateMachine_close_idempotent_nil (sm : StateMachine.SMHandle) :
    (StateMachine.close sm).2 = none
    ∧ (StateMachine.close (StateMachine.close sm).1).2 = none
    ∧ (StateMachine.close sm).1.cancelled = true
    ∧ (StateMachine.close (StateMachine.close sm).1).1.cancelled = true
    ∧ (∀ (steps : List (StepIdentifier × StateMachine.MStep))
        (st : StateMachine.LoopState) (evs : List StateMachine.LoopEvent),
        StateMachine.runLoop steps st (.cancel :: evs) = ([], .cancelled)) := by
  refine ⟨rfl, rfl, rfl, rfl, ?_⟩
  intro steps st evs
  rfl

/-- Claim C3: on every poll of the perform-set-status step, an error of the
was-performed query routes to the initial fetch-pending identifier; an
already-performed action advances to the top of the cycle (the same
fetch-pending identifier); not performed and not leader stays at the step
identifier; not performed and leader performs the action, staying on success
and routing to fetch-pending on failure; and the action is only ever
performed after the already-performed query returned false with this relayer
as leader. -/
theorem performSetStatus_step_transitions :
    (∀ (msg : String) (leader : Bool) (pr : Except String Unit),
      ElrondToEth.performSetStatusExecute ⟨.error msg, leader, pr⟩ =
        (BridgeSteps.GettingPendingBatchFromElrond, false))
    ∧ (∀ (leader : Bool) (pr : Except String Unit),
      ElrondToEth.performSetStatusExecute ⟨.ok true, leader, pr⟩ =
        (BridgeSteps.GettingPendingBatchFromElrond, false))
    ∧ (∀ pr : Except String Unit,
      ElrondToEth.performSetStatusExecute ⟨.ok false, false, pr⟩ =
        (BridgeSteps.PerformingSetStatus, false))
    ∧ (∀ msg : String,
      ElrondToEth.performSetStatusExecute ⟨.ok false, true, .error msg⟩ =
        (BridgeSteps.GettingPendingBatchFromElrond, true))
    ∧ ElrondToEth.performSetStatusExecute ⟨.ok false, true, .ok ()⟩ =
        (BridgeSteps.PerformingSetStatus, true)
    ∧ (∀ env : ElrondToEth.PerformSetStatusEnv,
      (ElrondToEth.performSetStatusExecute env).2 = true →
        env.wasPerformedResult = .ok false ∧ env.myTurnAsLeader = true) := by
  refine ⟨fun _ _ _ => rfl, fun _ _ => rfl, fun _ => rfl, fun _ => rfl, rfl, ?_⟩
  rintro ⟨wp, leader, pr⟩ hinv
  rcases wp with msg | b
  · simp [ElrondToEth.performSetStatusExecute] at hinv
  · rcases b with _ | _
    · rcases leader with _ | _
      · simp [ElrondToEth.performSetStatusExecute] at hinv
      · exact ⟨rfl, rfl⟩
    · simp [ElrondToEth.performSetStatusExecute] at hinv

/-- Witness for C3: a poll on which the action is performed indeed had the
was-performed query answer false and the leader flag set. -/
theorem performSetStatus_step_transitions_witness :
    (ElrondToEth.performSetStatusExecute ⟨.ok false, true, .ok ()⟩).2 = true
    ∧ ((⟨.ok false, true, .ok ()⟩ :
        ElrondToEth.PerformSetStatusEnv).wasPerformedResult = .ok false
      ∧ (⟨.ok false, true, .ok ()⟩ :
        ElrondToEth.PerformSetStatusEnv).myTurnAsLeader = true) :=
  ⟨rfl, performSetStatus_step_transitions.2.2.2.2.2 ⟨.ok false, true, .ok ()⟩ rfl⟩

/-- Claim C4: on every poll of the sign-proposed-set-status step (modelled
from the spec, its source file being absent): a nil stored batch yields the
initial step with no signing; an action-id lookup error or the sentinel
invalid id yields the initial step; already-signed true advances to
waiting-for-quorum-on-set-status without invoking sign; already-signed false
invokes sign exactly once and advances to the same identifier; a sign error
yields the initial step. -/
theorem signProposedSetStatus_step_transitions
    (aid : Nat) (haid : aid ≠ ElrondToEth.InvalidActionID) :
    (∀ (a : Except String Nat) (w : Except String Bool) (s : Except String Unit),
      ElrondToEth.signProposedSetStatusExecute ⟨none, a, w, s⟩ =
        (BridgeSteps.GettingPendingBatchFromElrond, 0))
    ∧ (∀ (msg : String) (w : Except String Bool) (s : Except String Unit),
      ElrondToEth.signProposedSetStatusExecute ⟨some (), .error msg, w, s⟩ =
        (BridgeSteps.GettingPendingBatchFromElrond, 0))
    ∧ (∀ (w : Except String Bool) (s : Except String Unit),
      ElrondToEth.signProposedSetStatusExecute
          ⟨some (), .ok ElrondToEth.InvalidActionID, w, s⟩ =
        (BridgeSteps.GettingPendingBatchFromElrond, 0))
    ∧ (∀ (msg : String) (s : Except String Unit),
      ElrondToEth.signProposedSetStatusExecute
          ⟨some (), .ok aid, .error msg, s⟩ =
        (BridgeSteps.GettingPendingBatchFromElrond, 0))
    ∧ (∀ s : Except String Unit,
      ElrondToEth.signProposedSetStatusExecute ⟨some (), .ok aid, .ok true, s⟩ =
        (BridgeSteps.WaitingForQuorumOnSetStatus, 0))
    ∧ ElrondToEth.signProposedSetStatusExecute
        ⟨some (), .ok aid, .ok false, .ok ()⟩ =
      (BridgeSteps.WaitingForQuorumOnSetStatus, 1)
    ∧ (∀ msg : String,
      ElrondToEth.signProposedSetStatusExecute
          ⟨some (), .ok aid, .ok false, .error msg⟩ =
        (BridgeSteps.GettingPendingBatchFromElrond, 1)) := by
  refine ⟨fun _ _ _ => rfl, fun _ _ _ => rfl, ?_, ?_, ?_, ?_, ?_⟩
  · intro w s
    simp [ElrondToEth.signProposedSetStatusExecute]
  · intro msg s
    simp [ElrondToEth.signProposedSetStatusExecute, haid]
  · intro s
    simp [ElrondToEth.signProposedSetStatusExecute, haid]
  · simp [ElrondToEth.signProposedSetStatusExecute, haid]
  · intro msg
    simp [ElrondToEth.signProposedSetStatusExecute, haid]

/-- Witness for C4 at the action id used by the unit test of the step. -/
theorem signProposedSetStatus_step_transitions_witness :
    (662528 ≠ ElrondToEth.InvalidActionID)
    ∧ ElrondToEth.signProposedSetStatusExecute
        ⟨some (), .ok 662528, .ok false, .ok ()⟩ =
      (BridgeSteps.WaitingForQuorumOnSetStatus, 1) :=
  ⟨by decide,
   (signProposedSetStatus_step_transitions 662528 (by decide)).2.2.2.2.2.1⟩

/-- Claim C5: every execution of the wait-transfer-confirmation step first
performs the blocking wait call (the trace lists the Executor calls made, in
order) and then returns the performing-transfer identifier unconditionally,
whatever the wait observed. -/
theorem waitTransferConfirmation_step_unconditional :
    ∀ env : ElrondToEth.WaitConfirmationEnv,
      ElrondToEth.waitTransferConfirmationExecute env =
        (["WaitForTransferConfirmation"], BridgeSteps.PerformingTransfer) :=
  fun _ => rfl

/-- Counterexample to claim C6: a response with status code 500 (not 2xx)
whose body is well-formed JSON carrying valid true is mapped by ValidateBatch
to (true, nil), so a non-2xx response is not always turned into an error:
the status code is never inspected. -/
theorem validateBatch_non2xx_counterexample :
    (¬ (200 ≤ 500 ∧ 500 < 300))
    ∧ BatchValidator.ValidateBatch (.ok ())
        (.response 500 (.jsonValid true)) = (true, none) := by
  exact ⟨by omega, rfl⟩

/-- Claim C6 as amended: ValidateBatch never inspects the status code of the
HTTP response; a response is processed by its body alone, so any two status
codes with the same body give the same result, and in particular a non-2xx
response with a well-formed JSON body is mapped to the parsed valid flag with
a nil error rather than to an error. -/
theorem validateBatch_status_code_ignored :
    (∀ (m : Except String Unit) (status status2 : Nat)
        (body : BatchValidator.BodyContent),
      BatchValidator.ValidateBatch m (.response status body) =
        BatchValidator.ValidateBatch m (.response status2 body))
    ∧ (∀ (status : Nat) (b : Bool),
      BatchValidator.ValidateBatch (.ok ()) (.response status (.jsonValid b)) =
        (b, none)) := by
  constructor
  · intro m status status2 body
    cases m <;> rfl
  · intro status b
    rfl

/-- Claim C7: ValidateBatch returns false together with an error whenever
marshalling fails, the request cannot be built, the transport fails or the
configured timeout elapses (both surface as an error of the Do call), the
body cannot be read, the body is empty (Go ReadAll yields a non-nil empty
slice, so this surfaces as the unmarshal error on empty input), or the body
is malformed JSON; and it returns (true, nil) for an HTTP 200 response whose
body is the well-formed JSON object with valid true. -/
theorem validateBatch_error_paths_and_success :
    (∀ (msg : String) (o : BatchValidator.DoOutcome),
      BatchValidator.ValidateBatch (.error msg) o =
        (false, some ("during marshal: " ++ msg)))
    ∧ (∀ msg : String,
      BatchValidator.ValidateBatch (.ok ()) (.requestBuildError msg) =
        (false, some ("executing request: " ++ msg)))
    ∧ (∀ msg : String,
      BatchValidator.ValidateBatch (.ok ()) (.transportError msg) =
        (false, some ("executing request: " ++ msg)))
    ∧ (∀ msg : String,
      BatchValidator.ValidateBatch (.ok ()) (.bodyReadError msg) =
        (false, some ("executing request: " ++ msg)))
    ∧ (∀ status : Nat,
      BatchValidator.ValidateBatch (.ok ()) (.response status .empty) =
        (false, some ("during unmarshal: " ++ "unexpected end of JSON input")))
    ∧ (∀ status : Nat,
      BatchValidator.ValidateBatch (.ok ()) (.response status .malformed) =
        (false, some ("during unmarshal: " ++ "invalid JSON")))
    ∧ BatchValidator.ValidateBatch (.ok ()) (.response 200 (.jsonValid true)) =
        (true, none) :=
  ⟨fun _ _ => rfl, fun _ => rfl, fun _ => rfl, fun _ => rfl, fun _ => rfl,
   fun _ => rfl, rfl⟩

/-- Claim C8: for every well-formed batch, the clone observes the same field
values as the original (same ID, deposits in order with equal nonce, byte
contents, displayable strings and amount), cloning leaves the original
unchanged, and the clone shares no backing storage with the original:
overwriting any byte-slice cell or big.Int cell reachable from the clone
leaves every observable value of the original batch unchanged. -/
theorem transferBatch_clone_deep_copy (tb : Batches.TransferBatch)
    (h : Batches.Heap) (hwf : Batches.wfBatch h tb = true) :
    ((tb.clone h).1.view (tb.clone h).2 = tb.view h)
    ∧ (tb.view (tb.clone h).2 = tb.view h)
    ∧ (∀ (r : Nat) (v : List Nat), r ∈ (tb.clone h).1.byteRefs →
        tb.view ((tb.clone h).2.writeBytes r v) = tb.view h)
    ∧ (∀ (r : Nat) (v : Int), r ∈ (tb.clone h).1.intRefs →
        tb.view ((tb.clone h).2.writeInt r v) = tb.view h) := by
  obtain ⟨hg, hv, _⟩ := Batches.cloneDeposits_spec tb.Deposits h hwf
  refine ⟨?_, ?_, ?_, ?_⟩
  · simp only [Batches.TransferBatch.clone, Batches.TransferBatch.view]
    exact congrArg _ hv
  · exact Batches.batchView_grows tb hwf (Batches.batchClone_grows tb h hwf)
  · intro r v hr
    refine Batches.batchView_grows tb hwf ?_
    exact Batches.heapGrows_writeBytes_fresh
      (Batches.batchClone_grows tb h hwf) r
      (Batches.batchClone_byteRefs_fresh tb h hwf r hr) v
  · intro r v hr
    refine Batches.batchView_grows tb hwf ?_
    exact Batches.heapGrows_writeInt_fresh
      (Batches.batchClone_grows tb h hwf) r
      (Batches.batchClone_intRefs_fresh tb h hwf r hr) v

/-- Witness for C8 at a concrete one-deposit batch in a concrete heap: the
batch is well formed, the clone observes the same values, and mutating the
first fresh byte cell of the clone (reference 3) leaves the original batch
view unchanged. -/
theorem transferBatch_clone_deep_copy_witness :
    Batches.wfBatch
        ⟨fun i => if i = 0 then [1, 2] else if i = 1 then [3] else [4], 3,
          fun _ => 5, 1⟩
        ⟨7, [⟨1, 0, "to", 1, "from", 2, "tok", some 0⟩]⟩ = true
    ∧ ((Batches.TransferBatch.clone
          ⟨7, [⟨1, 0, "to", 1, "from", 2, "tok", some 0⟩]⟩
          ⟨fun i => if i = 0 then [1, 2] else if i = 1 then [3] else [4], 3,
            fun _ => 5, 1⟩).1.view
        (Batches.TransferBatch.clone
          ⟨7, [⟨1, 0, "to", 1, "from", 2, "tok", some 0⟩]⟩
          ⟨fun i => if i = 0 then [1, 2] else if i = 1 then [3] else [4], 3,
            fun _ => 5, 1⟩).2 =
      Batches.TransferBatch.view
        ⟨7, [⟨1, 0, "to", 1, "from", 2, "tok", some 0⟩]⟩
        ⟨fun i => if i = 0 then [1, 2] else if i = 1 then [3] else [4], 3,
          fun _ => 5, 1⟩) :=
  ⟨by decide,
   (transferBatch_clone_deep_copy
      ⟨7, [⟨1, 0, "to", 1, "from", 2, "tok", some 0⟩]⟩
      ⟨fun i => if i = 0 then [1, 2] else if i = 1 then [3] else [4], 3,
        fun _ => 5, 1⟩ (by decide)).1⟩

/-- Claim C10: for a call of the Ethereum client ExecuteTransfer with a
non-nil batch and quorum q, when the earlier collaborator calls (nonce, chain
id, keyed transactor, gas price) succeed: holding fewer signatures than q
returns the empty transaction hash with the quorum-not-reached error and the
underlying contract call is never invoked; holding more signatures than q
(with argument extraction and the balance check succeeding) passes exactly
the first q signatures to the underlying contract call. -/
theorem executeTransfer_quorum_gate (b : Batches.TransferBatch) (q : Nat)
    (n cid gp : Int) (sigs : List (List Nat)) (ex bal : Except String Unit)
    (cr : Except String String) :
    (sigs.length < q →
      EthClient.executeTransfer (some b) q
          ⟨.ok n, .ok cid, .ok (), .ok gp, sigs, ex, bal, cr⟩ =
        ⟨"", some ("quorum not reached num signatures: " ++
            toString sigs.length ++ " quorum: " ++ toString q), none⟩)
    ∧ (sigs.length > q → ex = .ok () → bal = .ok () →
      (EthClient.executeTransfer (some b) q
          ⟨.ok n, .ok cid, .ok (), .ok gp, sigs, ex, bal, cr⟩).contractSigs =
        some (sigs.take q)) := by
  constructor
  · intro hlt
    simp [EthClient.executeTransfer, hlt]
  · intro hgt hex hbal
    subst hex
    subst hbal
    have hnlt : ¬ sigs.length < q := by omega
    cases cr with
    | error msg => simp [EthClient.executeTransfer, hnlt, hgt]
    | ok txHash => simp [EthClient.executeTransfer, hnlt, hgt]

/-- Witness for C10: one signature against quorum two fails with the
quorum-not-reached outcome; two signatures against quorum one pass exactly
the first signature to the contract call. -/
theorem executeTransfer_quorum_gate_witness :
    ((1 : Nat) < 2
      ∧ EthClient.executeTransfer (some ⟨7, []⟩) 2
          ⟨.ok 0, .ok 5, .ok (), .ok 3, [[1]], .ok (), .ok (), .ok "h"⟩ =
        ⟨"", some ("quorum not reached num signatures: " ++
            toString (1 : Nat) ++ " quorum: " ++ toString (2 : Nat)), none⟩)
    ∧ ((2 : Nat) > 1
      ∧ (EthClient.executeTransfer (some ⟨7, []⟩) 1
          ⟨.ok 0, .ok 5, .ok (), .ok 3, [[1], [2]], .ok (), .ok (),
            .ok "h"⟩).contractSigs = some [[1]]) :=
  ⟨⟨by decide,
    (executeTransfer_quorum_gate ⟨7, []⟩ 2 0 5 3 [[1]] (.ok ()) (.ok ())
      (.ok "h")).1 (by decide)⟩,
   ⟨by decide,
    (executeTransfer_quorum_gate ⟨7, []⟩ 1 0 5 3 [[1], [2]] (.ok ()) (.ok ())
      (.ok "h")).2 (by decide) rfl rfl⟩⟩
